import Mathlib

/-
Verification development for the pyext2 ext2 on-disk engine.

The definitions below are a shallow embedding of the Python sources:
  src/ext2/file/directory.py  (entry lists, directory objects, makeDirectory)
  src/ext2/disk/disk.py       (path lookup getFile, used-block/inode scans,
                               the _allocateInode routine)
Byte strings are embedded as `List Nat` (one Nat per byte) and whole blocks
as functions `Nat → Nat` from byte offset to byte value.  Integers are `Nat`;
the on-disk fields are produced and consumed through explicit little-endian
packing helpers mirroring the `struct.pack`/`unpack_from` calls of the source.
Fallible operations return `Except Ext2Error` or `Option`.

Parts of the repository are not present under src/ (file.py, symlink.py,
regularfile.py, superblock.py, bgdt.py, and the filesystem-facade allocator
methods that directory.py calls).  Definitions for those carry a doc comment
starting with `Modelled from the spec:` and follow the specification text.
-/

namespace PyExt2

/-- The four file-object variants produced by the factory
`Ext2Directory._openEntry` (directory.py lines 195-210). -/
inductive FileKind where
  | directory
  | regular
  | symlink
  | other
deriving DecidableEq, Repr

/-- Translation of the dispatch of `Ext2Directory._openEntry`
(directory.py lines 203-210): three sequential bit-mask tests on the
inode's `mode`, falling through to the plain `Ext2File`. -/
def openEntryKind (mode : Nat) : FileKind :=
  if mode &&& 0x4000 ≠ 0 then FileKind.directory
  else if mode &&& 0x8000 ≠ 0 then FileKind.regular
  else if mode &&& 0xA000 ≠ 0 then FileKind.symlink
  else FileKind.other

/-- Modelled from the spec: the file-type table of spec sections 3 and 4.7
("File type is encoded in the high nibble of `mode`: 0x4000 directory,
0x8000 regular, 0xA000 symlink, ..."), used to compare the source's
dispatch against the specified one. -/
def specFileKindOfMode (mode : Nat) : FileKind :=
  if (mode >>> 12) &&& 0xF = 0x4 then FileKind.directory
  else if (mode >>> 12) &&& 0xF = 0x8 then FileKind.regular
  else if (mode >>> 12) &&& 0xF = 0xA then FileKind.symlink
  else FileKind.other

/-- Little-endian bytes of a 16-bit value (`struct.pack "<H"`). -/
def u16Bytes (n : Nat) : List Nat :=
  [n % 256, n / 256 % 256]

/-- Little-endian bytes of a 32-bit value (`struct.pack "<I"`). -/
def u32Bytes (n : Nat) : List Nat :=
  [n % 256, n / 256 % 256, n / 65536 % 256, n / 16777216 % 256]

/-- Read a little-endian 16-bit value from a block (`unpack_from "<H"`). -/
def readU16 (B : Nat → Nat) (off : Nat) : Nat :=
  B off + 256 * B (off + 1)

/-- Read a little-endian 32-bit value from a block (`unpack_from "<I"`). -/
def readU32 (B : Nat → Nat) (off : Nat) : Nat :=
  B off + 256 * B (off + 1) + 65536 * B (off + 2) + 16777216 * B (off + 3)

/-- A block of bytes backed by a finite byte list (positions past the end
read as zero, as in a zero-filled block). -/
def listToBlock (l : List Nat) : Nat → Nat :=
  fun p => l.getD p 0

/-- The in-memory inode record used by directory.py through the filesystem
facade: `number`, `mode`, `uid`, `gid`, `size`, `numLinks`, `numSectors`
and the 15-slot block-pointer array (spec section 3, Inode). -/
structure Inode where
  number : Nat
  mode : Nat
  uid : Nat
  gid : Nat
  size : Nat
  numLinks : Nat
  numSectors : Nat
  blockPtrs : List Nat
deriving DecidableEq, Repr

/-- A block group descriptor table entry (spec section 3):
free-block/free-inode counters and the directory counter. -/
structure BGDTEntry where
  numFreeBlocks : Nat
  numFreeInodes : Nat
  numDirectories : Nat
deriving DecidableEq, Repr

/-- The filesystem state visible to the embedded operations: superblock
parameters and counters, the BGDT, the per-group bitmaps, the inode table
(an association list keyed by inode number) and the data blocks (an
association list from block id to a byte function). -/
structure FS where
  blockSize : Nat
  numBlocksPerGroup : Nat
  numInodesPerGroup : Nat
  firstInode : Nat
  sbNumFreeBlocks : Nat
  sbNumFreeInodes : Nat
  bgdt : List BGDTEntry
  inodeBitmaps : List (List Nat)
  blockBitmaps : List (List Nat)
  inodes : List (Nat × Inode)
  blocks : List (Nat × (Nat → Nat))

/-- Errors surfaced by the source (error.py is summarized in spec
section 7): `FilesystemError(message)`, `FileNotFoundError`, and the
unsupported-operation marker. -/
inductive Ext2Error where
  | filesystemError (msg : String)
  | fileNotFound
  | unsupportedOperation
deriving DecidableEq, Repr

/-- Replace (or insert) the value stored under a key in an association
list, preserving the order of the remaining bindings. -/
def setAssoc {α : Type} (l : List (Nat × α)) (k : Nat) (v : α) : List (Nat × α) :=
  match l with
  | [] => [(k, v)]
  | (k0, v0) :: rest =>
    if k0 = k then (k, v) :: rest else (k0, v0) :: setAssoc rest k v

/-- `Ext2Disk._readBlock`: fetch a block's bytes by block id (absent
blocks read as zero bytes). -/
def getBlock (fs : FS) (bid : Nat) : Nat → Nat :=
  match fs.blocks.lookup bid with
  | some B => B
  | none => fun _ => 0

/-- Store a whole block under a block id. -/
def setBlock (fs : FS) (bid : Nat) (B : Nat → Nat) : FS :=
  { fs with blocks := setAssoc fs.blocks bid B }

/-- Modelled from the spec: `_writeToBlock(blockId, offset, byteString)` of
the filesystem facade (absent from src/; directory.py calls it), writing a
byte string at a byte offset inside one block (spec section 4.1: `write`
overwrites in place). -/
def writeToBlock (fs : FS) (bid : Nat) (off : Nat) (bytes : List Nat) : FS :=
  setBlock fs bid
    (fun p => if off ≤ p ∧ p < off + bytes.length then bytes.getD (p - off) 0 else getBlock fs bid p)

/-- Store an inode record back into the inode table under its number. -/
def setInode (fs : FS) (ino : Inode) : FS :=
  { fs with inodes := setAssoc fs.inodes ino.number ino }

/-- Modelled from the spec: `firstDataBlock` of the superblock (spec
section 3: "0 if block size > 1024, else 1"; superblock.py is absent
from src/). -/
def firstDataBlockOf (blockSize : Nat) : Nat :=
  if blockSize > 1024 then 0 else 1

/-- Modelled from the spec: one level of indirect block-pointer
resolution — a 32-bit entry of an indirect block, with a zero physical id
signalling a hole (spec section 4.5). -/
def indirectLookup (fs : FS) (bid : Nat) (idx : Nat) : Nat :=
  if bid = 0 then 0 else readU32 (getBlock fs bid) (4 * idx)

/-- Modelled from the spec: `lookupBlockId(i)` of the inode engine (spec
section 4.5; inode.py is absent from src/): the i-th logical block of a
file resolved through the 12 direct and the singly/doubly/triply indirect
pointers. -/
def lookupBlockId (fs : FS) (ino : Inode) (i : Nat) : Nat :=
  let k := fs.blockSize / 4
  if i < 12 then ino.blockPtrs.getD i 0
  else if i < 12 + k then
    indirectLookup fs (ino.blockPtrs.getD 12 0) (i - 12)
  else if i < 12 + k + k * k then
    let j := i - 12 - k
    indirectLookup fs (indirectLookup fs (ino.blockPtrs.getD 13 0) (j / k)) (j % k)
  else
    let j := i - 12 - k - k * k
    indirectLookup fs
      (indirectLookup fs (indirectLookup fs (ino.blockPtrs.getD 14 0) (j / (k * k))) (j / k % k))
      (j % k)

/-- Modelled from the spec: `assignNextBlockId(newId)` of the inode engine
(spec section 4.5; inode.py is absent from src/): find the first unused
logical slot, write `newId` there, increment `numSectors` by
`blockSize / 512`, and return the logical index assigned.  Only the 12
direct slots are covered; `none` signals that the next free slot would
need an indirect block, which no operation embedded here reaches. -/
def assignNextBlockId (blockSize : Nat) (ino : Inode) (newId : Nat) : Option (Inode × Nat) :=
  match (ino.blockPtrs.take 12).findIdx? (fun b => b = 0) with
  | some j =>
    some ({ ino with blockPtrs := ino.blockPtrs.set j newId,
                     numSectors := ino.numSectors + blockSize / 512 }, j)
  | none => none

/-- A parsed directory entry, mirroring `_Entry` of directory.py: the
unpacked `inodeNum`/`recLen`/`nameLen`/name fields together with the
block index, block id and byte offset the record was read from. -/
structure EntryRec where
  inodeNum : Nat
  recLen : Nat
  nameLen : Nat
  name : List Nat
  bindex : Nat
  bid : Nat
  offset : Nat
deriving DecidableEq, Repr

/-- `_Entry.__init__` (directory.py lines 151-165): unpack `<IHB` at the
record's offset, then `nameLen` bytes of name starting 8 bytes in. -/
def readEntry (bindex bid : Nat) (B : Nat → Nat) (off : Nat) : EntryRec :=
  { inodeNum := readU32 B off
    recLen := readU16 B (off + 4)
    nameLen := B (off + 6)
    name := (List.range (B (off + 6))).map (fun j => B (off + 8 + j))
    bindex := bindex
    bid := bid
    offset := off }

/-- The per-block scan of `_EntryList.__init__` (directory.py lines
36-43): parse a record, stop at the first record whose `inodeNum` is 0,
otherwise advance by the record's `recLen` while the offset stays inside
the block.  The fuel argument bounds the loop; the Python `while` would
not terminate on a record with `recLen = 0`, which the fuel cuts off. -/
def parseFrom (blockSize bindex bid : Nat) (B : Nat → Nat) : Nat → Nat → List EntryRec
  | 0, _ => []
  | Nat.succ fuel, off =>
    if off < blockSize then
      let e := readEntry bindex bid B off
      if e.inodeNum = 0 then []
      else e :: parseFrom blockSize bindex bid B fuel (off + e.recLen)
    else []

/-- Modelled from the spec: the `numBlocks` property of a file object
(file.py is absent from src/) — the number of logical data blocks, with
directory sizes always whole multiples of `blockSize` (spec sections 4.6
and 4.7). -/
def numBlocksOf (fs : FS) (ino : Inode) : Nat :=
  ino.size / fs.blockSize

/-- The outer loop of `_EntryList.__init__` (directory.py lines 31-43):
walk logical blocks 0, 1, ... of the directory, stop at a zero block id,
and concatenate each block's parsed records. -/
def entryListGo (fs : FS) (ino : Inode) : Nat → Nat → List EntryRec
  | 0, _ => []
  | Nat.succ k, i =>
    let bid := lookupBlockId fs ino i
    if bid = 0 then []
    else
      parseFrom fs.blockSize i bid (getBlock fs bid) (fs.blockSize + 1) 0
        ++ entryListGo fs ino k (i + 1)

/-- The entry list of a directory as built by `_EntryList.__init__`. -/
def entryList (fs : FS) (ino : Inode) : List EntryRec :=
  entryListGo fs ino (numBlocksOf fs ino) 0

/-- `struct.pack "<IHBB{n}s"` with arguments
`(inodeNum, entrySize, nameLength, 0, name)` as used by
`_EntryList.append` (directory.py line 90). -/
def packEntry (inum entrySize nameLen : Nat) (name : List Nat) : List Nat :=
  u32Bytes inum ++ u16Bytes entrySize ++ [nameLen % 256] ++ [0] ++ name

/-- A directory record padded with zero bytes out to its record length
(used to build concrete on-disk directory blocks). -/
def mkRec (inum recLen : Nat) (name : List Nat) : List Nat :=
  let base := packEntry inum recLen name.length name
  base ++ List.replicate (recLen - base.length) 0

/-- First index of a clear bit (LSB first within each byte) in a bitmap,
starting no earlier than bit index `start`.  Returns the bit index. -/
def firstZeroBitFrom (bytes : List Nat) (start : Nat) : Option Nat :=
  (List.range (8 * bytes.length)).find?
    (fun j => decide (start ≤ j ∧ (bytes.getD (j / 8) 0) &&& (1 <<< (j % 8)) = 0))

/-- Set bit `j` (LSB first within each byte) of a bitmap. -/
def setBitmapBit (bytes : List Nat) (j : Nat) : List Nat :=
  bytes.set (j / 8) ((bytes.getD (j / 8) 0) ||| (1 <<< (j % 8)))

/-- First index of a BGDT entry satisfying a counter predicate. -/
def findGroupIdx (bgdt : List BGDTEntry) (p : BGDTEntry → Bool) : Option Nat :=
  bgdt.findIdx? p

/-- Update the BGDT entry of one group in place. -/
def updateGroup (fs : FS) (g : Nat) (f : BGDTEntry → BGDTEntry) : FS :=
  { fs with bgdt := fs.bgdt.set g (f (fs.bgdt.getD g ⟨0, 0, 0⟩)) }

/-- Modelled from the spec: `allocateBlock(zeroFill)` of the filesystem
facade (spec section 4.9; absent from src/ in the form directory.py
calls): first group with `numFreeBlocks > 0`, first zero bit of its block
bitmap, global id `firstDataBlock + g·numBlocksPerGroup + b·8 + i`
(spec section 4.4), optional zero fill, both free counters decremented. -/
def allocateBlockSpec (fs : FS) (zeroFill : Bool) : Option (FS × Nat) :=
  match findGroupIdx fs.bgdt (fun e => e.numFreeBlocks > 0) with
  | none => none
  | some g =>
    let bm := fs.blockBitmaps.getD g []
    match firstZeroBitFrom bm 0 with
    | none => none
    | some j =>
      let bid := firstDataBlockOf fs.blockSize + g * fs.numBlocksPerGroup + j
      let fs1 := { fs with blockBitmaps := fs.blockBitmaps.set g (setBitmapBit bm j) }
      let fs2 := updateGroup fs1 g (fun e => { e with numFreeBlocks := e.numFreeBlocks - 1 })
      let fs3 := { fs2 with sbNumFreeBlocks := fs2.sbNumFreeBlocks - 1 }
      let fs4 := if zeroFill then setBlock fs3 bid (fun _ => 0) else fs3
      some (fs4, bid)

/-- Modelled from the spec: `allocateInode(mode, uid, gid)` of the
filesystem facade (spec section 4.9; the routine in src/ is an unfinished
stub, embedded separately as `allocateInodeSrc`): first group with
`numFreeInodes > 0`, first zero bit of its inode bitmap honoring
`firstInode` in group 0, inode number `g·numInodesPerGroup + j + 1`,
fresh inode with zeroed pointer array and `numLinks = 0`, `size = 0`,
counters decremented, `numDirectories` incremented iff `mode` indicates a
directory. -/
def allocateInodeSpec (fs : FS) (mode uid gid : Nat) : Option (FS × Inode) :=
  match findGroupIdx fs.bgdt (fun e => e.numFreeInodes > 0) with
  | none => none
  | some g =>
    let bm := fs.inodeBitmaps.getD g []
    match firstZeroBitFrom bm (if g = 0 then fs.firstInode - 1 else 0) with
    | none => none
    | some j =>
      let inum := g * fs.numInodesPerGroup + j + 1
      let ino : Inode :=
        { number := inum, mode := mode, uid := uid, gid := gid, size := 0,
          numLinks := 0, numSectors := 0, blockPtrs := List.replicate 15 0 }
      let fs1 := { fs with inodeBitmaps := fs.inodeBitmaps.set g (setBitmapBit bm j) }
      let fs2 := updateGroup fs1 g
        (fun e => { e with numFreeInodes := e.numFreeInodes - 1,
                           numDirectories := if mode &&& 0x4000 ≠ 0 then
                             e.numDirectories + 1 else e.numDirectories })
      let fs3 := { fs2 with sbNumFreeInodes := fs2.sbNumFreeInodes - 1 }
      let fs4 := setInode fs3 ino
      some (fs4, ino)

/-- The tail of `_EntryList.append` (directory.py lines 90-96): pack and
write the new record, construct the in-memory `_Entry` from the packed
bytes, and run the `lastEntry.nextEntry = newEntry` property setter
(lines 137-148), which rewrites the previous last record's `recLen` on
disk as the distance to the new record (same block) or as
`blockSize - lastOffset + newOffset` (different block). -/
def appendFinish (fs : FS) (dirIno : Inode) (lastEntry : EntryRec)
    (bindex bid off : Nat) (name : List Nat) (entrySize inum : Nat) :
    Except Ext2Error (FS × Inode × EntryRec) :=
  let byteString := packEntry inum entrySize name.length name
  let fs1 := writeToBlock fs bid off byteString
  let newEntry :=
    { readEntry bindex bid (listToBlock byteString) 0 with offset := off }
  if newEntry.bindex = lastEntry.bindex then
    let newSize := newEntry.offset - lastEntry.offset
    if newSize = 0 then Except.error (Ext2Error.filesystemError "Next entry not after previous entry.")
    else
      let fs2 := writeToBlock fs1 lastEntry.bid (lastEntry.offset + 4) (u16Bytes newSize)
      Except.ok (fs2, dirIno, newEntry)
  else
    let newSize := fs.blockSize - lastEntry.offset + newEntry.offset
    let fs2 := writeToBlock fs1 lastEntry.bid (lastEntry.offset + 4) (u16Bytes newSize)
    Except.ok (fs2, dirIno, newEntry)

/-- `_EntryList.append(name, inodeNum)` (directory.py lines 62-96):
reject names longer than 255 bytes or empty, take the last entry of the
list, compute the 4-byte-aligned record size, and either place the new
record right after the last one in the same block or allocate a fresh
data block for it (growing the directory inode by one block). -/
def appendEntry (fs : FS) (dirIno : Inode) (name : List Nat) (inum : Nat) :
    Except Ext2Error (FS × Inode × EntryRec) :=
  let nameLength := name.length
  if nameLength > 255 then Except.error (Ext2Error.filesystemError "Name is too long.")
  else if nameLength = 0 then Except.error (Ext2Error.filesystemError "Name is too short.")
  else
    match (entryList fs dirIno).getLast? with
    | none => Except.error (Ext2Error.filesystemError "Entry list is empty.")
    | some lastEntry =>
      let entrySize := nameLength + 11 - (nameLength + 11) % 4
      if entrySize + lastEntry.offset + lastEntry.name.length + 11 < fs.blockSize then
        let lastSize := lastEntry.name.length + 11 - (lastEntry.name.length + 11) % 4
        appendFinish fs dirIno lastEntry lastEntry.bindex lastEntry.bid
          (lastEntry.offset + lastSize) name entrySize inum
      else
        match allocateBlockSpec fs true with
        | none => Except.error (Ext2Error.filesystemError "No free blocks.")
        | some (fs1, bid) =>
          match assignNextBlockId fs1.blockSize dirIno bid with
          | none => Except.error (Ext2Error.filesystemError "No free block slots.")
          | some (ino1, bindex) =>
            let ino2 := { ino1 with size := ino1.size + fs1.blockSize }
            let fs2 := setInode fs1 ino2
            appendFinish fs2 ino2 lastEntry bindex bid 0 name entrySize inum

/-- Whether a byte is ASCII whitespace, as stripped by Python's
`str.strip()`. -/
def isSpaceByte (b : Nat) : Bool :=
  b = 32 || b = 9 || b = 10 || b = 11 || b = 12 || b = 13

/-- `Ext2Directory.__makeNewEntry` (directory.py lines 294-317) for names
without a slash byte: reject all-whitespace names, reject duplicates,
allocate an inode and a zero-filled block, assign the block as the new
inode's first data block, grow its size by one block, append the
directory record, and increment `numLinks` on the new inode only.
The slash branch of the source (lines 297-299) recurses through
`getFileAt` into the parent directory and is answered here with an
error; no embedded claim exercises it. -/
def makeNewEntry (fs : FS) (dirIno : Inode) (name : List Nat) (mode uid gid : Nat) :
    Except Ext2Error (FS × EntryRec) :=
  if name.contains 47 then Except.error Ext2Error.unsupportedOperation
  else if name.all isSpaceByte then Except.error (Ext2Error.filesystemError "No name specified.")
  else if (entryList fs dirIno).any (fun e => e.name = name) then
    Except.error (Ext2Error.filesystemError "An entry with that name already exists.")
  else
    match allocateInodeSpec fs mode uid gid with
    | none => Except.error (Ext2Error.filesystemError "No free inodes.")
    | some (fs1, ino) =>
      match allocateBlockSpec fs1 true with
      | none => Except.error (Ext2Error.filesystemError "No free blocks.")
      | some (fs2, bid) =>
        match assignNextBlockId fs2.blockSize ino bid with
        | none => Except.error (Ext2Error.filesystemError "No free block slots.")
        | some (ino1, _) =>
          let ino2 := { ino1 with size := ino1.size + fs2.blockSize }
          let fs3 := setInode fs2 ino2
          match appendEntry fs3 dirIno name ino2.number with
          | Except.error e => Except.error e
          | Except.ok (fs4, _, entry) =>
            let ino3 := { ino2 with numLinks := ino2.numLinks + 1 }
            let fs5 := setInode fs4 ino3
            Except.ok (fs5, entry)

/-- `Ext2Directory.makeDirectory` (directory.py lines 256-278): build the
mode `0x41ED` from its permission-bit ORs, create the entry, pack the
default records with `struct.pack "<IHBB1s3xIHBB2s"` — `.` with record
length 12 and `..` with record length 12 — and write them at offset 0 of
the new directory's first data block.  Returns the new inode number. -/
def makeDirectory (fs : FS) (dirIno : Inode) (name : List Nat) (uid gid : Nat) :
    Except Ext2Error (FS × Nat) :=
  let mode := 0x4000 ||| 0x0100 ||| 0x0080 ||| 0x0040 ||| 0x0020 ||| 0x0008 ||| 0x0004 ||| 0x0001
  match makeNewEntry fs dirIno name mode uid gid with
  | Except.error e => Except.error e
  | Except.ok (fs1, entry) =>
    let defaultEntries :=
      packEntry entry.inodeNum 12 1 [46] ++ [0, 0, 0] ++ packEntry dirIno.number 12 2 [46, 46]
    match fs1.inodes.lookup entry.inodeNum with
    | none => Except.error (Ext2Error.filesystemError "Invalid inode.")
    | some ino =>
      let fs2 := writeToBlock fs1 (lookupBlockId fs1 ino 0) 0 defaultEntries
      Except.ok (fs2, entry.inodeNum)

/-- `Ext2Disk._allocateInode` as it stands in src/ (disk.py lines
499-525): pick the first group whose descriptor has free inodes, read its
bitmap, and then — for every byte that is not 255 and for every clear bit
of that byte — write the original byte with that one bit set back at the
byte's position (each later write overwriting the earlier one).  The
routine never updates the BGDT or superblock counters, never touches the
inode table, and falls through returning `None`; only the resulting
filesystem state is produced here. -/
def allocateInodeSrc (fs : FS) : Except Ext2Error FS :=
  match findGroupIdx fs.bgdt (fun e => e.numFreeInodes > 0) with
  | none => Except.error (Ext2Error.filesystemError "No free inodes.")
  | some g =>
    let bitmapSize := fs.numInodesPerGroup / 8
    let bm := (fs.inodeBitmaps.getD g []).take bitmapSize
    let bm1 := bm.enum.foldl
      (fun acc p =>
        if p.2 ≠ 255 then
          (List.range 8).foldl
            (fun acc2 i => if p.2 &&& (1 <<< i) = 0 then acc2.set p.1 (p.2 ||| (1 <<< i)) else acc2)
            acc
        else acc)
      bm
    Except.ok { fs with inodeBitmaps := fs.inodeBitmaps.set g bm1 }

/-- `Ext2Disk.__getUsedBlocks` (disk.py lines 461-482): for every group's
block bitmap, every nonzero byte and every set bit (LSB first), the block
id `groupNum * numBlocksPerGroup + byteIndex * 8 + i + 1`. -/
def usedBlocksCode (nbpg : Nat) (bitmaps : List (List Nat)) : List Nat :=
  bitmaps.enum.flatMap
    (fun gp =>
      gp.2.enum.flatMap
        (fun bp =>
          if bp.2 ≠ 0 then
            (List.range 8).filterMap
              (fun i =>
                if bp.2 &&& (1 <<< i) ≠ 0 then
                  some (gp.1 * nbpg + bp.1 * 8 + i + 1)
                else none)
          else []))

/-- The slice of a file object that path resolution consults: the name it
was discovered under, its inode number, and its `isDir` predicate
(directory.py `Ext2Directory.isDir`; spec section 4.7). -/
structure FileObj where
  name : List Char
  inodeNum : Nat
  isDir : Bool
deriving DecidableEq, Repr

/-- The directory-listing interface that the path-resolution loops of
`Ext2Disk.getFile` and `Ext2Directory.getFileAt` consume: each inode's
mode and the (name, inode number) pairs its entry list yields.  This
abstracts the byte-level entry list, which the path layer only iterates. -/
structure PathFS where
  modeOf : Nat → Nat
  entriesOf : Nat → List (List Char × Nat)

/-- Open a file object from a directory entry: its name is the entry's
name, and it is a directory exactly when bit 0x4000 of its inode's mode
is set (directory.py `_openEntry` together with `Ext2Directory.isDir`). -/
def openObj (fs : PathFS) (name : List Char) (inum : Nat) : FileObj :=
  { name := name, inodeNum := inum, isDir := fs.modeOf inum &&& 0x4000 ≠ 0 }

/-- The root directory object: inode 2, empty name (disk.py line 128). -/
def rootObj (fs : PathFS) : FileObj :=
  { name := [], inodeNum := 2, isDir := fs.modeOf 2 &&& 0x4000 ≠ 0 }

/-- The inner loop of both path walks: scan the current directory's
entries for the first whose name equals the component and open it; leave
the current object unchanged when nothing matches. -/
def lookupStep (fs : PathFS) (cur : FileObj) (part : List Char) : FileObj :=
  match (fs.entriesOf cur.inodeNum).find? (fun e => e.1 = part) with
  | some e => openObj fs e.1 e.2
  | none => cur

/-- The component loop of `Ext2Disk.getFile` (disk.py lines 171-177):
`break` out of the walk as soon as the current object is not a
directory. -/
def walkAbs (fs : PathFS) : FileObj → List (List Char) → FileObj
  | cur, [] => cur
  | cur, p :: ps => if cur.isDir then walkAbs fs (lookupStep fs cur p) ps else cur

/-- The component loop of `Ext2Directory.getFileAt` (directory.py lines
234-239): a component is looked up only when the current object is a
directory, and the loop always continues with the next component. -/
def walkRel (fs : PathFS) : FileObj → List (List Char) → FileObj
  | cur, [] => cur
  | cur, p :: ps => walkRel fs (if cur.isDir then lookupStep fs cur p else cur) ps

/-- The semantics of `re.compile("/+").split(path)`: the pieces of the
path between maximal runs of slashes, with an empty leading piece when
the path starts with a slash and an empty trailing piece when it ends
with one. -/
def splitSlashes : List Char → List (List Char)
  | [] => [[]]
  | c :: cs =>
    if c = '/' then [] :: splitSlashes (cs.dropWhile (fun d => d = '/'))
    else
      match splitSlashes cs with
      | [] => [[c]]
      | p :: ps => (c :: p) :: ps
termination_by l => l.length
decreasing_by
  · have h : (cs.dropWhile (fun d => d = '/')).length ≤ cs.length := by
      induction cs with
      | nil => simp [List.dropWhile]
      | cons c0 cs0 ih =>
        rw [List.dropWhile_cons]
        split
        · exact le_trans ih (by simp)
        · exact Nat.le_refl _
    simp only [List.length_cons]
    omega
  · simp only [List.length_cons]
    omega

/-- Replace every maximal run of slashes by a single slash (the
normalization named by the resolution-insensitivity property). -/
def collapseSlashes : List Char → List Char
  | [] => []
  | c :: cs =>
    if c = '/' then '/' :: collapseSlashes (cs.dropWhile (fun d => d = '/'))
    else c :: collapseSlashes cs
termination_by l => l.length
decreasing_by
  · have h : (cs.dropWhile (fun d => d = '/')).length ≤ cs.length := by
      induction cs with
      | nil => simp [List.dropWhile]
      | cons c0 cs0 ih =>
        rw [List.dropWhile_cons]
        split
        · exact le_trans ih (by simp)
        · exact Nat.le_refl _
    simp only [List.length_cons]
    omega
  · simp only [List.length_cons]
    omega

/-- Drop one trailing slash — the "one trailing empty component" of the
resolution-insensitivity property. -/
def dropLastSlash (l : List Char) : List Char :=
  if l.getLast? = some '/' then l.dropLast else l

/-- The path normalization of the resolution-insensitivity property:
collapse every run of slashes to a single slash, then drop one trailing
empty component. -/
def normalizePath (l : List Char) : List Char :=
  dropLastSlash (collapseSlashes l)

/-- Delete the trailing empty component when the part list has more than
one element (`if len(pathParts) > 1 and pathParts[-1] == "": del
pathParts[-1]`, shared by disk.py line 166 and directory.py line 228). -/
def delTrailingEmpty (parts : List (List Char)) : List (List Char) :=
  if 1 < parts.length ∧ parts.getLast? = some [] then parts.dropLast else parts

/-- `Ext2Disk.getFile` (disk.py lines 155-182) applied to an
already-split part list: reject an empty list or a relative first
component, trim a trailing empty component, remember the final component
as `localName`, walk the remaining components from the root, and fail
with `FileNotFoundError` unless the reached object's name equals
`localName`. -/
def getFileFromParts (fs : PathFS) (parts : List (List Char)) : Except Ext2Error FileObj :=
  match parts with
  | [] => Except.error Ext2Error.fileNotFound
  | p0 :: rest =>
    if p0 = [] then
      let parts1 := delTrailingEmpty (p0 :: rest)
      let localName := parts1.getLastD []
      let res := walkAbs fs (rootObj fs) parts1.tail
      if res.name = localName then Except.ok res else Except.error Ext2Error.fileNotFound
    else Except.error Ext2Error.fileNotFound

/-- `Ext2Disk.getFile` on a path string. -/
def getFile (fs : PathFS) (path : List Char) : Except Ext2Error FileObj :=
  getFileFromParts fs (splitSlashes path)

/-- `Ext2Directory.getFileAt` (directory.py lines 221-244) applied to an
already-split part list: trim a leading empty component and a trailing
empty component (each only when more than one part remains), fail on an
empty list, walk all remaining components from this directory, and fail
with `FileNotFoundError` when the final component is nonempty and
differs from the reached object's name. -/
def getFileAtFromParts (fs : PathFS) (dirObj : FileObj) (parts : List (List Char)) :
    Except Ext2Error FileObj :=
  let a := if 1 < parts.length ∧ parts.head? = some [] then parts.tail else parts
  let b := delTrailingEmpty a
  match b with
  | [] => Except.error Ext2Error.fileNotFound
  | _ :: _ =>
    let res := walkRel fs dirObj b
    let last := b.getLastD []
    if last ≠ [] ∧ last ≠ res.name then Except.error Ext2Error.fileNotFound
    else Except.ok res

/-- `Ext2Directory.getFileAt` on a relative path string. -/
def getFileAt (fs : PathFS) (dirObj : FileObj) (path : List Char) : Except Ext2Error FileObj :=
  getFileAtFromParts fs dirObj (splitSlashes path)

/-- A fully resolving chain of components: every component is found in
the directory at hand (used to phrase path-lookup properties about
traversals whose intermediate steps all succeed). -/
def resolveChain (fs : PathFS) : FileObj → List (List Char) → Option FileObj
  | cur, [] => some cur
  | cur, p :: ps =>
    if cur.isDir then
      match (fs.entriesOf cur.inodeNum).find? (fun e => e.1 = p) with
      | some e => resolveChain fs (openObj fs e.1 e.2) ps
      | none => none
    else none

/-- No two adjacent slashes occur in the character list. -/
def noDoubleSlash : List Char → Bool
  | [] => true
  | [_] => true
  | c :: d :: t => !(c = '/' && d = '/') && noDoubleSlash (d :: t)

/-- The byte string of the name `lost+found`. -/
def lostFoundName : List Nat :=
  [108, 111, 115, 116, 43, 102, 111, 117, 110, 100]

/-- The byte string of the name `new`. -/
def newName : List Nat :=
  [110, 101, 119]

/-- A freshly formatted root-directory block, as mke2fs lays it out:
`.` and `..` both pointing at inode 2 with record length 12, then
`lost+found` (inode 11) with its record length inflated to 1000 so the
block's record lengths sum to the block size of 1024. -/
def rootBlockBytes : List Nat :=
  mkRec 2 12 [46] ++ mkRec 2 12 [46, 46] ++ mkRec 11 1000 lostFoundName

/-- The root inode of the concrete test image: a directory of one data
block (block id 21) with three links (`.`, `..` of itself, and `..` of
`lost+found`). -/
def rootIno0 : Inode :=
  { number := 2, mode := 0x41ED, uid := 0, gid := 0, size := 1024, numLinks := 3,
    numSectors := 2, blockPtrs := [21, 0, 0, 0, 0, 0, 0, 0, 0, 0, 0, 0, 0, 0, 0] }

/-- A concrete single-group test image with block size 1024: inodes 1-12
in use (the 11 reserved ones, the root, and `lost+found`), blocks up to
bit 14 in use, 4 free inodes and 100 free blocks. -/
def fs0 : FS :=
  { blockSize := 1024, numBlocksPerGroup := 8192, numInodesPerGroup := 16, firstInode := 11,
    sbNumFreeBlocks := 100, sbNumFreeInodes := 4,
    bgdt := [{ numFreeBlocks := 100, numFreeInodes := 4, numDirectories := 2 }],
    inodeBitmaps := [[255, 15]],
    blockBitmaps := [[255, 127]],
    inodes := [(2, rootIno0)],
    blocks := [(21, listToBlock rootBlockBytes)] }

/-- `makeDirectory("new")` run on the root of the concrete image. -/
def mkdirResult : Except Ext2Error (FS × Nat) :=
  makeDirectory fs0 rootIno0 newName 0 0

/-- The filesystem state after `makeDirectory("new")` (the initial state
if the operation failed, which the theorems rule out by evaluation). -/
def mkdirStateAfter : FS :=
  match mkdirResult with
  | Except.ok (fs, _) => fs
  | Except.error _ => fs0

/-- The all-zero placeholder inode used as the association-list default. -/
def defaultInode : Inode :=
  { number := 0, mode := 0, uid := 0, gid := 0, size := 0, numLinks := 0,
    numSectors := 0, blockPtrs := [] }

/-- Inode `n` of the post-`makeDirectory` state. -/
def inodeAfter (n : Nat) : Inode :=
  (mkdirStateAfter.inodes.lookup n).getD defaultInode

/-- The entry list of the newly created directory (inode 13). -/
def childEntriesAfter : List EntryRec :=
  entryList mkdirStateAfter (inodeAfter 13)

/-- `_EntryList.append("new", 13)` run directly on the root directory of
the concrete image (whose block initially satisfies the
record-length-sum invariant). -/
def appendResult : Except Ext2Error (FS × Inode × EntryRec) :=
  appendEntry fs0 rootIno0 newName 13

/-- The filesystem state after the direct append. -/
def appendStateAfter : FS :=
  match appendResult with
  | Except.ok (fs, _, _) => fs
  | Except.error _ => fs0

/-- The root directory's entries re-read from disk after the append. -/
def rootEntriesAfterAppend : List EntryRec :=
  entryList appendStateAfter rootIno0

/-- Concrete input for the src `_allocateInode` routine: one group of 8
inodes whose bitmap byte is 0xFC (inodes 1 and 2 free), 2 free inodes
recorded in both the group descriptor and the superblock. -/
def fs3c : FS :=
  { blockSize := 1024, numBlocksPerGroup := 8192, numInodesPerGroup := 8, firstInode := 11,
    sbNumFreeBlocks := 10, sbNumFreeInodes := 2,
    bgdt := [{ numFreeBlocks := 10, numFreeInodes := 2, numDirectories := 1 }],
    inodeBitmaps := [[252]],
    blockBitmaps := [[255]],
    inodes := [],
    blocks := [] }

/-- The state produced by the src `_allocateInode` on the concrete
input. -/
def fs3cAfter : FS :=
  match allocateInodeSrc fs3c with
  | Except.ok fs => fs
  | Except.error _ => fs3c

/-- A directory block holding a live entry `a` (inode 5), then a deleted
entry (`inodeNum = 0`), then a live entry `c` (inode 7) whose record
length 1000 closes the block: record lengths sum to 1024. -/
def blockC5 : List Nat :=
  mkRec 5 12 [97] ++ mkRec 0 12 [] ++ mkRec 7 1000 [99]

/-- The inode of the one-block directory containing `blockC5`. -/
def ino4 : Inode :=
  { number := 4, mode := 0x41ED, uid := 0, gid := 0, size := 1024, numLinks := 2,
    numSectors := 2, blockPtrs := [30, 0, 0, 0, 0, 0, 0, 0, 0, 0, 0, 0, 0, 0, 0] }

/-- A concrete image holding the directory with the deleted middle
entry. -/
def fs5 : FS :=
  { blockSize := 1024, numBlocksPerGroup := 8192, numInodesPerGroup := 16, firstInode := 11,
    sbNumFreeBlocks := 100, sbNumFreeInodes := 4,
    bgdt := [{ numFreeBlocks := 100, numFreeInodes := 4, numDirectories := 2 }],
    inodeBitmaps := [[255, 15]],
    blockBitmaps := [[255, 127]],
    inodes := [(4, ino4)],
    blocks := [(30, listToBlock blockC5)] }

/-- A first directory block parameterized by arbitrary content around the
scan: a live entry `[a]` (inode 5, record length 12), a deleted entry
(`inodeNum = 0`) with name byte `b`, then a record whose four inode-number
bytes `c0..c3` and name are arbitrary and whose record length 1000 closes
the block. -/
def c5Block (a b c0 c1 c2 c3 : Nat) : List Nat :=
  mkRec 5 12 [a] ++ mkRec 0 12 [b] ++
    ([c0, c1, c2, c3] ++ u16Bytes 1000 ++ [1, 0, 99] ++ List.replicate 991 0)

/-- A second directory block holding a single live entry `d` (inode 9)
whose record length covers the whole block. -/
def c5SecondBlock : List Nat :=
  mkRec 9 1024 [100]

/-- The inode of the two-block directory used for the iteration
property: data blocks 40 and 41. -/
def c5Ino : Inode :=
  { number := 6, mode := 0x41ED, uid := 0, gid := 0, size := 2048, numLinks := 2,
    numSectors := 4, blockPtrs := [40, 41, 0, 0, 0, 0, 0, 0, 0, 0, 0, 0, 0, 0, 0] }

/-- The parameterized image for the iteration property. -/
def c5FS (a b c0 c1 c2 c3 : Nat) : FS :=
  { blockSize := 1024, numBlocksPerGroup := 8192, numInodesPerGroup := 16, firstInode := 11,
    sbNumFreeBlocks := 100, sbNumFreeInodes := 4,
    bgdt := [{ numFreeBlocks := 100, numFreeInodes := 4, numDirectories := 2 }],
    inodeBitmaps := [[255, 15]],
    blockBitmaps := [[255, 127]],
    inodes := [(6, c5Ino)],
    blocks := [(40, listToBlock (c5Block a b c0 c1 c2 c3)), (41, listToBlock c5SecondBlock)] }

/-- A concrete directory tree for the path-lookup claims: the root
(inode 2) contains a single directory `b` (inode 5), which is empty. -/
def fsP : PathFS :=
  { modeOf := fun n => if n = 2 then 0x41ED else if n = 5 then 0x41ED else 0,
    entriesOf := fun n => if n = 2 then [(['b'], 5)] else [] }

/-- C1: the factory's mode dispatch does not follow the high nibble of
`mode`.  A symlink (`0xA1FF`) satisfies `mode & 0x8000 ≠ 0` first and is
opened as a Regular file; a character device (`0x2000`) reaches the
`mode & 0xA000` test and is opened as a Symlink; block devices (`0x6000`)
and sockets (`0xC000`) satisfy `mode & 0x4000 ≠ 0` and are opened as
Directories.  Only directories, regular files and FIFOs come out as the
claim states. -/
theorem c1_openEntry_dispatch_bug :
    openEntryKind 0xA1FF = FileKind.regular ∧
    specFileKindOfMode 0xA1FF = FileKind.symlink ∧
    openEntryKind 0x21A4 = FileKind.symlink ∧
    specFileKindOfMode 0x21A4 = FileKind.other ∧
    openEntryKind 0x61A4 = FileKind.directory ∧
    specFileKindOfMode 0x61A4 = FileKind.other ∧
    openEntryKind 0xC1A4 = FileKind.directory ∧
    specFileKindOfMode 0xC1A4 = FileKind.other ∧
    openEntryKind 0x41ED = FileKind.directory ∧
    openEntryKind 0x8180 = FileKind.regular ∧
    openEntryKind 0x1180 = FileKind.other := by
  decide

/-- C2: after `makeDirectory("new")` on the concrete image the new
directory's block does hold exactly the two records `.` (new inode 13)
and `..` (parent inode 2), and listing yields exactly those two entries —
but the `..` record is written with recordLength 12, not
`blockSize - 12 = 1012`. -/
theorem c2_makeDirectory_block_records :
    mkdirResult.toOption.isSome = true ∧
    (childEntriesAfter.map fun e => (e.name, e.inodeNum)) = [([46], 13), ([46, 46], 2)] ∧
    childEntriesAfter.map EntryRec.recLen = [12, 12] ∧
    (readEntry 0 16 (getBlock mkdirStateAfter 16) 12).recLen = 12 ∧
    fs0.blockSize - 12 = 1012 ∧ (12 : Nat) ≠ 1012 := by
  decide

/-- C3: the src `_allocateInode` on a group whose first bitmap byte is
0xFC (inodes 1 and 2 free) leaves the first zero bit — bit 0 — clear
(the byte becomes 0xFE, not 0xFD), updates neither the group descriptor's
nor the superblock's `numFreeInodes`, and initializes no inode. -/
theorem c3_allocateInode_stub_behavior :
    (allocateInodeSrc fs3c).toOption.isSome = true ∧
    fs3c.inodeBitmaps = [[252]] ∧ 252 &&& (1 <<< 0) = 0 ∧
    fs3cAfter.inodeBitmaps = [[254]] ∧ 254 &&& (1 <<< 0) = 0 ∧
    fs3cAfter.sbNumFreeInodes = fs3c.sbNumFreeInodes ∧
    (fs3cAfter.bgdt.getD 0 ⟨0, 0, 0⟩).numFreeInodes =
      (fs3c.bgdt.getD 0 ⟨0, 0, 0⟩).numFreeInodes ∧
    fs3cAfter.inodes = [] := by
  decide

/-- C4: the root block of the concrete image initially satisfies the
record-length-sum invariant (12 + 12 + 1000 = 1024); after
`append("new", 13)` the re-read entries are the original three in order
followed by the new one, but their record lengths are 12, 12, 20, 12,
summing to 56 ≠ blockSize: the new last record's length is its aligned
minimum, never inflated to reach the end of the block. -/
theorem c4_append_breaks_recLen_sum :
    appendResult.toOption.isSome = true ∧
    ((entryList fs0 rootIno0).map EntryRec.recLen).sum = fs0.blockSize ∧
    (entryList fs0 rootIno0).map EntryRec.name = [[46], [46, 46], lostFoundName] ∧
    rootEntriesAfterAppend.map EntryRec.name = [[46], [46, 46], lostFoundName, newName] ∧
    rootEntriesAfterAppend.map EntryRec.recLen = [12, 12, 20, 12] ∧
    ((rootEntriesAfterAppend.map EntryRec.recLen)).sum = 56 ∧
    (56 : Nat) ≠ fs0.blockSize := by
  decide

/-- C5 counterexample: in a block holding live `a` (inode 5), a deleted
record, and live `c` (inode 7, present on disk at offset 24), iterating
the directory yields only `a` — the live entry after the deleted one is
not yielded, refuting the skip-and-continue reading. -/
theorem c5_counterexample :
    ((entryList fs5 ino4).map fun e => (e.name, e.inodeNum)) = [([97], 5)] ∧
    (readEntry 0 30 (getBlock fs5 30) 24).inodeNum = 7 ∧
    (readEntry 0 30 (getBlock fs5 30) 24).name = [99] ∧
    ((entryList fs5 ino4).map fun e => (e.name, e.inodeNum)) ≠ [([97], 5), ([99], 7)] := by
  decide

/-- One unfolding step of the per-block scan, with the parsed fields
spelled out. -/
theorem parseFrom_succ (bs bi bid : Nat) (B : Nat → Nat) (fuel off : Nat) :
    parseFrom bs bi bid B (Nat.succ fuel) off =
      if off < bs then
        if readU32 B off = 0 then []
        else readEntry bi bid B off :: parseFrom bs bi bid B fuel (off + readU16 B (off + 4))
      else [] := rfl

/-- The per-block scan yields nothing once the offset leaves the block. -/
theorem parseFrom_out (bs bi bid : Nat) (B : Nat → Nat) (fuel off : Nat) (h : ¬ off < bs) :
    parseFrom bs bi bid B fuel off = [] := by
  cases fuel with
  | zero => rfl
  | succ n => rw [parseFrom_succ, if_neg h]

/-- The per-block scan yields nothing from a record whose inode number
reads as zero. -/
theorem parseFrom_stop (bs bi bid : Nat) (B : Nat → Nat) (fuel off : Nat)
    (h0 : readU32 B off = 0) :
    parseFrom bs bi bid B fuel off = [] := by
  cases fuel with
  | zero => rfl
  | succ n =>
    rw [parseFrom_succ, h0]
    simp

/-- One unfolding step of the outer block loop of the entry-list scan. -/
theorem entryListGo_succ (fs : FS) (ino : Inode) (k i : Nat) :
    entryListGo fs ino (Nat.succ k) i =
      if lookupBlockId fs ino i = 0 then []
      else
        parseFrom fs.blockSize i (lookupBlockId fs ino i)
            (getBlock fs (lookupBlockId fs ino i)) (fs.blockSize + 1) 0
          ++ entryListGo fs ino k (i + 1) := rfl

/-- C5 (amended): an entry with `inodeNum = 0` terminates the scan of its
data block — whatever the deleted record's name byte `b` and whatever
record follows it (arbitrary inode bytes `c0..c3`), nothing at or beyond
the deleted record's offset is yielded — while entries of the next data
block are still yielded. -/
theorem c5_deleted_entry_ends_block_scan (a b c0 c1 c2 c3 : Nat) :
    ((entryList (c5FS a b c0 c1 c2 c3) c5Ino).map fun e => (e.name, e.inodeNum)) =
      [([a], 5), ([100], 9)] := by
  have hnum : numBlocksOf (c5FS a b c0 c1 c2 c3) c5Ino = 2 := by
    norm_num [numBlocksOf, c5FS, c5Ino]
  have hb0 : lookupBlockId (c5FS a b c0 c1 c2 c3) c5Ino 0 = 40 := rfl
  have hb1 : lookupBlockId (c5FS a b c0 c1 c2 c3) c5Ino (0 + 1) = 41 := rfl
  have hbs : (c5FS a b c0 c1 c2 c3).blockSize = 1024 := rfl
  have hB40 : getBlock (c5FS a b c0 c1 c2 c3) 40 = listToBlock (c5Block a b c0 c1 c2 c3) := rfl
  have hB41 : getBlock (c5FS a b c0 c1 c2 c3) 41 = listToBlock c5SecondBlock := rfl
  have h40z : readU32 (listToBlock (c5Block a b c0 c1 c2 c3)) 0 = 5 := rfl
  have h40r : readU16 (listToBlock (c5Block a b c0 c1 c2 c3)) (0 + 4) = 12 := rfl
  have h40stop : readU32 (listToBlock (c5Block a b c0 c1 c2 c3)) (0 + 12) = 0 := rfl
  have h41z : readU32 (listToBlock c5SecondBlock) 0 = 9 := rfl
  have h41r : readU16 (listToBlock c5SecondBlock) (0 + 4) = 1024 := rfl
  have hgo0 : entryListGo (c5FS a b c0 c1 c2 c3) c5Ino 0 (0 + 1 + 1) = [] := rfl
  rw [entryList, hnum, entryListGo_succ, hb0, hB40, entryListGo_succ, hb1, hB41, hgo0, hbs]
  rw [parseFrom_succ, h40z, h40r,
    parseFrom_stop 1024 0 40 (listToBlock (c5Block a b c0 c1 c2 c3)) 1024 (0 + 12) h40stop]
  rw [parseFrom_succ, h41z, h41r,
    parseFrom_out 1024 (0 + 1) 41 (listToBlock c5SecondBlock) 1024 (0 + 1024) (by norm_num)]
  norm_num
  and_intros <;> rfl

/-- C6: `makeDirectory` increments `numLinks` only on the new inode
(from 0 to 1); the parent root inode's `numLinks` stays 3 instead of
being incremented for the child's `..` entry.  The group's
`numDirectories` does go from 2 to 3 (in the spec-modelled allocator). -/
theorem c6_makeDirectory_link_counts :
    mkdirResult.toOption.isSome = true ∧
    rootIno0.numLinks = 3 ∧
    (inodeAfter 2).numLinks = 3 ∧
    (inodeAfter 13).numLinks = 1 ∧
    (mkdirStateAfter.bgdt.getD 0 ⟨0, 0, 0⟩).numDirectories = 3 := by
  decide

/-- C7 counterexample: with `numBlocksPerGroup = 8` and a single bitmap
byte 1 (bit 0 set), the enumeration yields block id 1, but on a
filesystem with block size 2048 the claim's formula
`firstDataBlock + g · numBlocksPerGroup + b·8 + i` gives 0. -/
theorem c7_counterexample :
    usedBlocksCode 8 [[1]] = [1] ∧
    firstDataBlockOf 2048 + 0 * 8 + 0 * 8 + 0 = 0 ∧
    usedBlocksCode 8 [[1]] ≠ [firstDataBlockOf 2048 + 0 * 8 + 0 * 8 + 0] := by
  decide

/-- C8 counterexample: in a tree whose root lacks `a` but contains the
directory `b`, looking up `/a/b` does not fail — the missing intermediate
component leaves the walk at the root, the next component `b` matches,
and the final-name check passes, so the lookup returns `b` (inode 5). -/
theorem c8_counterexample :
    (fsP.entriesOf 2).find? (fun e => e.1 = ['a']) = none ∧
    getFile fsP ['/', 'a', '/', 'b'] =
      Except.ok { name := ['b'], inodeNum := 5, isDir := true } := by
  have hsplit : splitSlashes ['/', 'a', '/', 'b'] = [[], ['a'], ['b']] := by
    simp [splitSlashes]
  refine ⟨rfl, ?_⟩
  rw [getFile, hsplit]
  rfl

/-- C10: `append(name, inodeNum)` rejects a name whose byte length is 0
or exceeds 255 with a `FilesystemError` raised by the two leading length
checks — before the last entry is inspected, before any block allocation
and before any device write, so the returned error carries no new
filesystem state. -/
theorem c10_append_rejects_bad_name_length (fs : FS) (dirIno : Inode) (name : List Nat)
    (inum : Nat) (h : name.length = 0 ∨ name.length > 255) :
    appendEntry fs dirIno name inum =
        Except.error (Ext2Error.filesystemError "Name is too long.") ∨
    appendEntry fs dirIno name inum =
        Except.error (Ext2Error.filesystemError "Name is too short.") := by
  rcases h with h | h
  · right
    simp only [appendEntry]
    rw [h, if_neg (by norm_num), if_pos rfl]
  · left
    simp only [appendEntry]
    rw [if_pos h]

set_option maxRecDepth 4000 in
/-- C10 witness: the length hypothesis discharged at the concrete name of
256 zero bytes on the concrete image. -/
theorem c10_append_rejects_bad_name_length_witness :
    appendEntry fs0 rootIno0 (List.replicate 256 0) 13 =
        Except.error (Ext2Error.filesystemError "Name is too long.") ∨
    appendEntry fs0 rootIno0 (List.replicate 256 0) 13 =
        Except.error (Ext2Error.filesystemError "Name is too short.") :=
  c10_append_rejects_bad_name_length fs0 rootIno0 (List.replicate 256 0) 13
    (Or.inr (by decide))

/-- C7 (amended): the used-block enumeration produces exactly the ids
`g * numBlocksPerGroup + b * 8 + i + 1` over set bits — the source's
constant `+ 1` in place of the superblock's `firstDataBlock` (the two
agree exactly when `firstDataBlock = 1`, i.e. for 1024-byte blocks). -/
theorem c7_usedBlocks_enumeration (nbpg : Nat) (bms : List (List Nat)) (x : Nat) :
    x ∈ usedBlocksCode nbpg bms ↔
      ∃ g b i, i < 8 ∧ g < bms.length ∧ b < (bms.getD g []).length ∧
        (bms.getD g []).getD b 0 &&& (1 <<< i) ≠ 0 ∧
        x = g * nbpg + b * 8 + i + 1 := by
  constructor
  · intro hx
    simp only [usedBlocksCode, List.mem_flatMap] at hx
    obtain ⟨⟨g, bm⟩, hgbm, hx⟩ := hx
    obtain ⟨⟨b, byte⟩, hbyte, hx⟩ := hx
    rw [List.mk_mem_enum_iff_getElem?] at hgbm hbyte
    by_cases hnz : byte ≠ 0
    · rw [if_pos hnz] at hx
      simp only [List.mem_filterMap, List.mem_range] at hx
      obtain ⟨i, hi, hopt⟩ := hx
      by_cases hbit : byte &&& (1 <<< i) ≠ 0
      · rw [if_pos hbit] at hopt
        have hg : g < bms.length := (List.getElem?_eq_some.mp hgbm).1
        have hbmv : bms.getD g [] = bm := by
          rw [List.getD_eq_getElem?_getD, hgbm]
          rfl
        have hb : b < bm.length := (List.getElem?_eq_some.mp hbyte).1
        have hbv : bm.getD b 0 = byte := by
          rw [List.getD_eq_getElem?_getD, hbyte]
          rfl
        refine ⟨g, b, i, hi, hg, ?_, ?_, ?_⟩
        · rw [hbmv]
          exact hb
        · rw [hbmv, hbv]
          exact hbit
        · exact (Option.some.inj hopt).symm
      · rw [if_neg hbit] at hopt
        cases hopt
    · rw [if_neg hnz] at hx
      cases hx
  · rintro ⟨g, b, i, hi, hg, hb, hbit, hx⟩
    have hbmv : bms[g]? = some (bms.getD g []) := by
      rw [List.getD_eq_getElem?_getD, List.getElem?_eq_getElem hg]
      rfl
    have hbv : (bms.getD g [])[b]? = some ((bms.getD g []).getD b 0) := by
      conv_rhs => rw [List.getD_eq_getElem?_getD]
      rw [List.getElem?_eq_getElem hb]
      rfl
    have hnz : (bms.getD g []).getD b 0 ≠ 0 := by
      intro h0
      rw [h0] at hbit
      simp at hbit
    simp only [usedBlocksCode, List.mem_flatMap]
    refine ⟨(g, bms.getD g []), ?_, (b, (bms.getD g []).getD b 0), ?_, ?_⟩
    · rw [List.mk_mem_enum_iff_getElem?]
      exact hbmv
    · rw [List.mk_mem_enum_iff_getElem?]
      exact hbv
    · rw [if_pos hnz]
      simp only [List.mem_filterMap, List.mem_range]
      exact ⟨i, hi, by rw [if_pos hbit, hx]⟩

/-- The absolute-path walk never moves off a non-directory. -/
theorem walkAbs_not_dir (fs : PathFS) (cur : FileObj) (l : List (List Char))
    (h : ¬ cur.isDir = true) : walkAbs fs cur l = cur := by
  cases l with
  | nil => rfl
  | cons p ps => simp [walkAbs, h]

/-- The absolute-path walk processes an appended part list in two
stages. -/
theorem walkAbs_append (fs : PathFS) (cur : FileObj) (xs ys : List (List Char)) :
    walkAbs fs cur (xs ++ ys) = walkAbs fs (walkAbs fs cur xs) ys := by
  induction xs generalizing cur with
  | nil => rfl
  | cons p ps ih =>
    by_cases h : cur.isDir = true
    · simp only [List.cons_append, walkAbs, if_pos h]
      exact ih _
    · simp only [List.cons_append, walkAbs, if_neg h]
      exact (walkAbs_not_dir fs cur ys h).symm

/-- A fully resolving chain of components is followed faithfully by the
absolute-path walk. -/
theorem resolveChain_walkAbs (fs : PathFS) (ps : List (List Char)) :
    ∀ (cur D : FileObj), resolveChain fs cur ps = some D → walkAbs fs cur ps = D := by
  induction ps with
  | nil =>
    intro cur D h
    simp only [resolveChain] at h
    cases h
    rfl
  | cons p ps ih =>
    intro cur D h
    simp only [resolveChain] at h
    by_cases hd : cur.isDir = true
    · rw [if_pos hd] at h
      cases hfind : (fs.entriesOf cur.inodeNum).find? (fun e => e.1 = p) with
      | none => rw [hfind] at h; cases h
      | some e =>
        rw [hfind] at h
        rw [walkAbs, if_pos hd, lookupStep, hfind]
        exact ih _ _ h
    · rw [if_neg hd] at h
      cases h

/-- C8 (amended): a missing FINAL component does fail with
`FileNotFound`, provided its name also differs from the reached object's
own name: if the earlier components all resolve (to `D`), the final
component is not among `D`'s entries, is nonempty, and differs from
`D`'s name, then `getFile` raises `FileNotFoundError`.  (A missing
intermediate component, by contrast, leaves the walk in place rather
than failing — see the counterexample.) -/
theorem c8_missing_final_component_not_found (fs : PathFS) (path : List Char)
    (ps : List (List Char)) (f : List Char) (D : FileObj)
    (hsplit : splitSlashes path = [] :: (ps ++ [f]))
    (hchain : resolveChain fs (rootObj fs) ps = some D)
    (hfind : (fs.entriesOf D.inodeNum).find? (fun e => e.1 = f) = none)
    (hne : f ≠ [])
    (hname : f ≠ D.name) :
    getFile fs path = Except.error Ext2Error.fileNotFound := by
  have hlast : ([] :: (ps ++ [f])).getLast? = some f := by
    rw [← List.cons_append]
    exact List.getLast?_concat _
  have hwalkD : walkAbs fs (rootObj fs) ps = D := resolveChain_walkAbs fs ps _ _ hchain
  have hDf : walkAbs fs D [f] = D := by
    by_cases hd : D.isDir = true
    · rw [walkAbs, if_pos hd, lookupStep, hfind]
      rfl
    · exact walkAbs_not_dir fs D [f] hd
  have hdel : delTrailingEmpty ([] :: (ps ++ [f])) = [] :: (ps ++ [f]) := by
    rw [delTrailingEmpty, if_neg]
    rintro ⟨-, hcontra⟩
    rw [hlast] at hcontra
    exact hne (Option.some.inj hcontra)
  rw [getFile, hsplit]
  simp only [getFileFromParts, if_true]
  rw [hdel]
  rw [List.getLastD_eq_getLast?, hlast]
  simp only [List.tail_cons, Option.getD_some]
  rw [walkAbs_append, hwalkD, hDf]
  rw [if_neg (fun hcontra => hname (hcontra.symm))]

/-- C8 witness: the hypotheses discharged at the concrete tree and the
path `/nope`, whose final component is absent from the root. -/
theorem c8_missing_final_component_not_found_witness :
    getFile fsP ['/', 'n', 'o', 'p', 'e'] = Except.error Ext2Error.fileNotFound :=
  c8_missing_final_component_not_found fsP ['/', 'n', 'o', 'p', 'e'] []
    ['n', 'o', 'p', 'e'] (rootObj fsP)
    (by simp [splitSlashes]) rfl rfl (by decide) (by decide)

/-- `re.split` never returns an empty piece list. -/
theorem splitSlashes_ne_nil (l : List Char) : splitSlashes l ≠ [] := by
  match l with
  | [] => simp [splitSlashes]
  | c :: cs =>
    simp only [splitSlashes]
    split
    · simp
    · split
      · simp
      · simp

/-- Splitting a list that starts with a slash. -/
theorem splitSlashes_cons_slash (cs : List Char) :
    splitSlashes ('/' :: cs) = [] :: splitSlashes (cs.dropWhile (fun d => d = '/')) := by
  simp [splitSlashes]

/-- Splitting a list that starts with a non-slash character. -/
theorem splitSlashes_cons_nonslash (c : Char) (cs : List Char) (hc : ¬ c = '/') :
    splitSlashes (c :: cs) =
      (c :: (splitSlashes cs).headD []) :: (splitSlashes cs).tail := by
  cases hsp : splitSlashes cs with
  | nil => exact absurd hsp (splitSlashes_ne_nil cs)
  | cons p ps => simp [splitSlashes, hc, hsp]

/-- Collapsing a list that starts with a slash. -/
theorem collapseSlashes_cons_slash (cs : List Char) :
    collapseSlashes ('/' :: cs) = '/' :: collapseSlashes (cs.dropWhile (fun d => d = '/')) := by
  simp [collapseSlashes]

/-- Collapsing a list that starts with a non-slash character. -/
theorem collapseSlashes_cons_nonslash (c : Char) (cs : List Char) (hc : ¬ c = '/') :
    collapseSlashes (c :: cs) = c :: collapseSlashes cs := by
  simp [collapseSlashes, hc]

/-- After dropping leading slashes, the head is not a slash. -/
theorem dropWhile_slash_head (l : List Char) :
    (l.dropWhile (fun d => d = '/')).head? ≠ some '/' := by
  induction l with
  | nil => simp
  | cons c cs ih =>
    rw [List.dropWhile_cons]
    split
    · exact ih
    · rename_i h
      simp only [List.head?_cons, ne_eq, Option.some.injEq]
      intro hc
      exact h (by simp [hc])

/-- Collapsing preserves the head character. -/
theorem collapse_head (l : List Char) : (collapseSlashes l).head? = l.head? := by
  match l with
  | [] => simp [collapseSlashes]
  | c :: cs =>
    by_cases hc : c = '/'
    · subst hc
      rw [collapseSlashes_cons_slash]
      rfl
    · rw [collapseSlashes_cons_nonslash c cs hc]
      rfl

/-- Dropping leading slashes from a list that does not start with one is
the identity. -/
theorem dropWhile_eq_self_of_head (l : List Char) (h : l.head? ≠ some '/') :
    l.dropWhile (fun d => d = '/') = l := by
  cases l with
  | nil => rfl
  | cons c cs =>
    have hc : ¬ c = '/' := by
      intro hc
      exact h (by rw [hc]; rfl)
    rw [List.dropWhile_cons_of_neg (by simpa using hc)]

/-- Dropping leading slashes never lengthens a list. -/
theorem dropWhile_slash_length (cs : List Char) :
    (cs.dropWhile (fun d => d = '/')).length ≤ cs.length := by
  induction cs with
  | nil => simp [List.dropWhile]
  | cons c0 cs0 ih =>
    rw [List.dropWhile_cons]
    split
    · exact le_trans ih (by simp)
    · exact Nat.le_refl _

/-- Collapsing runs of slashes does not change the `re.split` pieces. -/
theorem split_collapse : ∀ l : List Char, splitSlashes (collapseSlashes l) = splitSlashes l
  | [] => by simp [collapseSlashes]
  | c :: cs => by
    by_cases hc : c = '/'
    · subst hc
      rw [collapseSlashes_cons_slash, splitSlashes_cons_slash,
        dropWhile_eq_self_of_head _ (by rw [collapse_head]; exact dropWhile_slash_head cs),
        split_collapse (cs.dropWhile (fun d => d = '/')), splitSlashes_cons_slash]
    · rw [collapseSlashes_cons_nonslash c _ hc, splitSlashes_cons_nonslash c _ hc,
        split_collapse cs, splitSlashes_cons_nonslash c cs hc]
termination_by l => l.length
decreasing_by
  · have h := dropWhile_slash_length cs
    simp only [List.length_cons]
    omega
  · simp only [List.length_cons]
    omega

/-- Dropping a (proper) slash prefix preserves the last element. -/
theorem dropWhile_getLast? (l : List Char) (h : l.dropWhile (fun d => d = '/') ≠ []) :
    (l.dropWhile (fun d => d = '/')).getLast? = l.getLast? := by
  induction l with
  | nil => simp at h
  | cons c cs ih =>
    by_cases hc : (fun d => decide (d = '/')) c = true
    · rw [List.dropWhile_cons, if_pos hc] at h ⊢
      rw [ih h]
      have hcs : cs ≠ [] := by
        intro he
        rw [he] at h
        simp at h
      cases cs with
      | nil => exact absurd rfl hcs
      | cons d ds => exact (List.getLast?_cons_cons).symm
    · rw [List.dropWhile_cons, if_neg hc]

/-- Appending one slash to a piece list: if the list already ends in a
slash the pieces are unchanged (the final run grows), otherwise one empty
trailing piece appears. -/
theorem splitSlashes_append_slash : ∀ r : List Char,
    splitSlashes (r ++ ['/']) =
      if r.getLast? = some '/' then splitSlashes r else splitSlashes r ++ [[]]
  | [] => by simp [splitSlashes]
  | c :: cs => by
    by_cases hc : c = '/'
    · subst hc
      rw [List.cons_append, splitSlashes_cons_slash]
      by_cases hdw : cs.dropWhile (fun d => d = '/') = []
      · have hdw2 : (cs ++ ['/']).dropWhile (fun d => d = '/') = [] := by
          rw [List.dropWhile_append]
          simp [hdw]
        rw [hdw2]
        cases cs with
        | nil => simp [splitSlashes]
        | cons d ds =>
          have hne : (d :: ds) ≠ [] := by simp
          have hlast : ('/' :: d :: ds).getLast? = some '/' := by
            rw [List.getLast?_cons_cons, List.getLast?_eq_getLast _ hne]
            have hmem := List.dropWhile_eq_nil_iff.mp hdw
            have := hmem ((d :: ds).getLast hne) (List.getLast_mem hne)
            simpa using this
          rw [if_pos hlast, splitSlashes_cons_slash, hdw]
      · have hne : cs ≠ [] := by
          intro h
          rw [h] at hdw
          exact hdw rfl
        have happ : (cs ++ ['/']).dropWhile (fun d => d = '/') =
            cs.dropWhile (fun d => d = '/') ++ ['/'] := by
          rw [List.dropWhile_append]
          simp [hdw]
        rw [happ, splitSlashes_append_slash (cs.dropWhile (fun d => d = '/')),
          dropWhile_getLast? cs hdw]
        have hlast2 : ('/' :: cs).getLast? = cs.getLast? := by
          cases cs with
          | nil => exact absurd rfl hne
          | cons d ds => exact List.getLast?_cons_cons
        rw [hlast2, splitSlashes_cons_slash]
        by_cases hl2 : cs.getLast? = some '/'
        · rw [if_pos hl2, if_pos hl2]
        · rw [if_neg hl2, if_neg hl2]
          simp
    · rw [List.cons_append, splitSlashes_cons_nonslash c _ hc,
        splitSlashes_append_slash cs]
      by_cases hl : cs.getLast? = some '/'
      · have hcs : cs ≠ [] := by
          intro h
          rw [h] at hl
          cases hl
        have hlast : (c :: cs).getLast? = cs.getLast? := by
          cases cs with
          | nil => exact absurd rfl hcs
          | cons d ds => exact List.getLast?_cons_cons
        rw [if_pos hl, if_pos (by rw [hlast]; exact hl),
          splitSlashes_cons_nonslash c cs hc]
      · have hSne := splitSlashes_ne_nil cs
        have hlast : ¬ (c :: cs).getLast? = some '/' := by
          cases cs with
          | nil => simp [hc]
          | cons d ds =>
            rw [List.getLast?_cons_cons]
            exact hl
        rw [if_neg hl, if_neg hlast, splitSlashes_cons_nonslash c cs hc]
        cases hsp : splitSlashes cs with
        | nil => exact absurd hsp hSne
        | cons p ps => simp [hsp]
termination_by r => r.length
decreasing_by
  · have h := dropWhile_slash_length cs
    simp only [List.length_cons]
    omega
  · simp only [List.length_cons]
    omega

/-- If a list is nonempty and does not end in a slash, its final
`re.split` piece is nonempty. -/
theorem splitSlashes_getLast_ne : ∀ r : List Char, r ≠ [] → r.getLast? ≠ some '/' →
    (splitSlashes r).getLast? ≠ some []
  | [], hne, _ => absurd rfl hne
  | [c], _, hsl => by
    have hc : ¬ c = '/' := by
      intro h
      exact hsl (by rw [h]; rfl)
    rw [splitSlashes_cons_nonslash c [] hc]
    simp [splitSlashes]
  | c :: d :: t, _, hsl => by
    have hsl2 : (d :: t).getLast? ≠ some '/' := by
      intro hcontra
      apply hsl
      rw [List.getLast?_cons_cons]
      exact hcontra
    by_cases hc : c = '/'
    · subst hc
      rw [splitSlashes_cons_slash]
      have hdw : (d :: t).dropWhile (fun x => x = '/') ≠ [] := by
        intro hnil
        have hmem := List.dropWhile_eq_nil_iff.mp hnil
        have hne2 : (d :: t) ≠ [] := by simp
        have := hmem ((d :: t).getLast hne2) (List.getLast_mem hne2)
        exact hsl2 (by rw [List.getLast?_eq_getLast _ hne2]; simpa using this)
      have hrec := splitSlashes_getLast_ne ((d :: t).dropWhile (fun x => x = '/')) hdw
        (by rw [dropWhile_getLast? _ hdw]; exact hsl2)
      cases hS : splitSlashes ((d :: t).dropWhile (fun x => x = '/')) with
      | nil => exact absurd hS (splitSlashes_ne_nil _)
      | cons p ps =>
        rw [hS] at hrec
        rw [List.getLast?_cons_cons]
        exact hrec
    · rw [splitSlashes_cons_nonslash c _ hc]
      have hrec := splitSlashes_getLast_ne (d :: t) (by simp) hsl2
      cases hS : splitSlashes (d :: t) with
      | nil => exact absurd hS (splitSlashes_ne_nil _)
      | cons p ps =>
        rw [hS] at hrec
        cases ps with
        | nil => simp
        | cons q qs =>
          simp only [List.headD_cons, List.tail_cons]
          rw [List.getLast?_cons_cons]
          rw [List.getLast?_cons_cons] at hrec
          exact hrec
termination_by r => r.length
decreasing_by
  · have h := dropWhile_slash_length (d :: t)
    simp only [List.length_cons] at h ⊢
    omega
  · simp only [List.length_cons]
    omega

/-- `noDoubleSlash` is preserved by dropping the head. -/
theorem noDoubleSlash_tail (c : Char) (l : List Char)
    (h : noDoubleSlash (c :: l) = true) : noDoubleSlash l = true := by
  cases l with
  | nil => rfl
  | cons d t =>
    simp only [noDoubleSlash, Bool.and_eq_true] at h
    exact h.2

/-- The collapsed form of a path has no two adjacent slashes. -/
theorem noDoubleSlash_collapse : ∀ l : List Char, noDoubleSlash (collapseSlashes l) = true
  | [] => by simp [collapseSlashes, noDoubleSlash]
  | c :: cs => by
    by_cases hc : c = '/'
    · subst hc
      rw [collapseSlashes_cons_slash]
      have hrec := noDoubleSlash_collapse (cs.dropWhile (fun d => d = '/'))
      have hhead := collapse_head (cs.dropWhile (fun d => d = '/'))
      cases hX : collapseSlashes (cs.dropWhile (fun d => d = '/')) with
      | nil => rfl
      | cons x t =>
        rw [hX] at hrec hhead
        have hx : ¬ x = '/' := by
          intro h
          rw [List.head?_cons, h] at hhead
          exact dropWhile_slash_head cs hhead.symm
        simp only [noDoubleSlash, Bool.and_eq_true]
        constructor
        · simp [hx]
        · exact hrec
    · rw [collapseSlashes_cons_nonslash c _ hc]
      have hrec := noDoubleSlash_collapse cs
      cases hX : collapseSlashes cs with
      | nil => rfl
      | cons y t =>
        rw [hX] at hrec
        simp only [noDoubleSlash, Bool.and_eq_true]
        constructor
        · simp [hc]
        · exact hrec
termination_by l => l.length
decreasing_by
  · have h := dropWhile_slash_length cs
    simp only [List.length_cons]
    omega
  · simp only [List.length_cons]
    omega

/-- In a list with no two adjacent slashes that ends in a slash, the
element before the final slash is not a slash. -/
theorem noDoubleSlash_append_slash : ∀ r : List Char,
    noDoubleSlash (r ++ ['/']) = true → r.getLast? ≠ some '/'
  | [], _ => by simp
  | [c], h => by
    simp only [List.cons_append, List.nil_append, noDoubleSlash,
      Bool.and_eq_true] at h
    have hc : ¬ c = '/' := by
      intro hcc
      rcases h with ⟨h1, -⟩
      simp [hcc] at h1
    simp [hc]
  | c :: d :: t, h => by
    have h2 : noDoubleSlash ((d :: t) ++ ['/']) = true := by
      rw [List.cons_append] at h
      exact noDoubleSlash_tail c _ h
    have hrec := noDoubleSlash_append_slash (d :: t) h2
    rw [List.getLast?_cons_cons]
    exact hrec

/-- The pieces of a path and of its normalization: either they are equal,
or the original has exactly one extra trailing empty piece, and in the
latter case the normalized pieces are `[[]]` or end in a nonempty piece. -/
theorem split_normalize_rel (p : List Char) :
    splitSlashes p = splitSlashes (normalizePath p) ∨
      (splitSlashes p = splitSlashes (normalizePath p) ++ [[]] ∧
        (splitSlashes (normalizePath p) = [[]] ∨
          (splitSlashes (normalizePath p)).getLast? ≠ some [])) := by
  simp only [normalizePath, dropLastSlash]
  by_cases hq : (collapseSlashes p).getLast? = some '/'
  · rw [if_pos hq]
    have hqne : collapseSlashes p ≠ [] := by
      intro h
      rw [h] at hq
      cases hq
    have hdecomp : (collapseSlashes p).dropLast ++ ['/'] = collapseSlashes p := by
      have h1 := List.dropLast_append_getLast hqne
      have h2 : (collapseSlashes p).getLast hqne = '/' := by
        have h3 := List.getLast?_eq_getLast _ hqne
        rw [h3] at hq
        exact Option.some.inj hq
      rw [h2] at h1
      exact h1
    have hnd : noDoubleSlash ((collapseSlashes p).dropLast ++ ['/']) = true := by
      rw [hdecomp]
      exact noDoubleSlash_collapse p
    have hr := noDoubleSlash_append_slash _ hnd
    have hsplit : splitSlashes p = splitSlashes ((collapseSlashes p).dropLast) ++ [[]] := by
      rw [← split_collapse p, ← hdecomp, splitSlashes_append_slash, if_neg hr,
        List.dropLast_concat]
    right
    refine ⟨hsplit, ?_⟩
    by_cases hrnil : (collapseSlashes p).dropLast = []
    · left
      rw [hrnil]
      simp [splitSlashes]
    · right
      exact splitSlashes_getLast_ne _ hrnil hr
  · rw [if_neg hq]
    left
    exact (split_collapse p).symm

/-- Dropping the extra trailing empty piece does not change the result of
the absolute-path lookup on split pieces. -/
theorem getFileFromParts_drop_trailing (fs : PathFS) (S : List (List Char))
    (hS : S ≠ []) (hshape : S = [[]] ∨ S.getLast? ≠ some []) :
    getFileFromParts fs (S ++ [[]]) = getFileFromParts fs S := by
  rcases hshape with h | hlast
  · subst h
    rfl
  · cases S with
    | nil => exact absurd rfl hS
    | cons p0 rest =>
      rw [List.cons_append]
      by_cases hp0 : p0 = []
      · subst hp0
        have hdelL : delTrailingEmpty ([] :: (rest ++ [[]])) = [] :: rest := by
          rw [delTrailingEmpty, if_pos]
          · rw [← List.cons_append, List.dropLast_concat]
          · constructor
            · simp
            · rw [← List.cons_append, List.getLast?_concat]
        have hdelR : delTrailingEmpty ([] :: rest) = [] :: rest := by
          rw [delTrailingEmpty, if_neg]
          rintro ⟨-, hcontra⟩
          exact hlast hcontra
        simp only [getFileFromParts, if_true]
        rw [hdelL, hdelR]
      · simp only [getFileFromParts]
        rw [if_neg hp0, if_neg hp0]

/-- Dropping the extra trailing empty piece does not change the result of
the relative-path lookup on split pieces. -/
theorem getFileAtFromParts_drop_trailing (fs : PathFS) (d : FileObj) (S : List (List Char))
    (hS : S ≠ []) (hshape : S = [[]] ∨ S.getLast? ≠ some []) :
    getFileAtFromParts fs d (S ++ [[]]) = getFileAtFromParts fs d S := by
  rcases hshape with h | hlast
  · subst h
    rfl
  · cases S with
    | nil => exact absurd rfl hS
    | cons p0 rest =>
      rw [List.cons_append]
      by_cases hp0 : p0 = []
      · subst hp0
        have hrest : rest ≠ [] := by
          intro h
          subst h
          exact hlast rfl
        have haL : (if 1 < ([] :: (rest ++ [[]])).length ∧
            ([] :: (rest ++ [[]])).head? = some [] then ([] :: (rest ++ [[]])).tail
            else [] :: (rest ++ [[]])) = rest ++ [[]] := by
          rw [if_pos]
          · rfl
          · constructor
            · simp
            · rfl
        have haR : (if 1 < ([] :: rest).length ∧ ([] :: rest).head? = some [] then
            ([] :: rest).tail else [] :: rest) = rest := by
          rw [if_pos]
          · rfl
          · constructor
            · cases rest with
              | nil => exact absurd rfl hrest
              | cons r rs => simp
            · rfl
        have hdelL : delTrailingEmpty (rest ++ [[]]) = rest := by
          rw [delTrailingEmpty, if_pos]
          · simp
          · constructor
            · cases rest with
              | nil => exact absurd rfl hrest
              | cons r rs => simp
            · rw [List.getLast?_concat]
        have hdelR : delTrailingEmpty rest = rest := by
          rw [delTrailingEmpty, if_neg]
          rintro ⟨-, hcontra⟩
          refine hlast ?_
          cases rest with
          | nil => exact absurd rfl hrest
          | cons r rs => rw [List.getLast?_cons_cons]; exact hcontra
        simp only [getFileAtFromParts]
        rw [haL, haR, hdelL, hdelR]
      · have haL : (if 1 < (p0 :: (rest ++ [[]])).length ∧
            (p0 :: (rest ++ [[]])).head? = some [] then (p0 :: (rest ++ [[]])).tail
            else p0 :: (rest ++ [[]])) = p0 :: (rest ++ [[]]) := by
          rw [if_neg]
          rintro ⟨-, hcontra⟩
          exact hp0 (Option.some.inj hcontra)
        have haR : (if 1 < (p0 :: rest).length ∧ (p0 :: rest).head? = some [] then
            (p0 :: rest).tail else p0 :: rest) = p0 :: rest := by
          rw [if_neg]
          rintro ⟨-, hcontra⟩
          exact hp0 (Option.some.inj hcontra)
        have hdelL : delTrailingEmpty (p0 :: (rest ++ [[]])) = p0 :: rest := by
          rw [delTrailingEmpty, if_pos]
          · rw [← List.cons_append, List.dropLast_concat]
          · constructor
            · simp
            · rw [← List.cons_append, List.getLast?_concat]
        have hdelR : delTrailingEmpty (p0 :: rest) = p0 :: rest := by
          rw [delTrailingEmpty, if_neg]
          rintro ⟨-, hcontra⟩
          exact hlast hcontra
        simp only [getFileAtFromParts]
        rw [haL, haR, hdelL, hdelR]

/-- C9: path resolution is insensitive to runs of slashes and to one
trailing empty component: for every path, both `Ext2Disk.getFile` and
`Ext2Directory.getFileAt` return the same result on the path and on its
normalization (each slash run replaced by a single slash, one trailing
empty component dropped); in particular `//a///b/` resolves identically
to `/a/b`. -/
theorem c9_resolution_insensitive_to_slash_runs :
    (∀ (fs : PathFS) (p : List Char), getFile fs (normalizePath p) = getFile fs p) ∧
      (∀ (fs : PathFS) (d : FileObj) (p : List Char),
        getFileAt fs d (normalizePath p) = getFileAt fs d p) := by
  constructor
  · intro fs p
    rcases split_normalize_rel p with h | ⟨h, hshape⟩
    · rw [getFile, getFile, h]
    · rw [getFile, getFile, h,
        getFileFromParts_drop_trailing fs _ (splitSlashes_ne_nil _) hshape]
  · intro fs d p
    rcases split_normalize_rel p with h | ⟨h, hshape⟩
    · rw [getFileAt, getFileAt, h]
    · rw [getFileAt, getFileAt, h,
        getFileAtFromParts_drop_trailing fs d _ (splitSlashes_ne_nil _) hshape]

end PyExt2
